import Mathlib

/-!
Verification of the grepr line-filtering and file-discovery engine
(`src/lib.rs`): the Line Filter `find_lines`, the File Resolver
`find_files`, and the driver `run` / `get_args`, embedded shallowly and
checked against the specification's claims.

Modelling conventions:
* Rust `String` values (lines, paths, messages) are `List Char`.
* A reader (`T: BufRead`) is the finite sequence of its successive
  `read_line` outcomes: `Except.ok buffer` for a successful read that
  appended `buffer`, `Except.error ()` for a failed read; the end of the
  list means every further read returns zero bytes.
* `walkdir::WalkDir::new(path)` is a function from the path to the list
  of items its iterator yields; each item is either an entry (with a
  file type) or a walk error optionally carrying an underlying I/O
  error.
* A Rust panic (from `Option::unwrap` on `None`) is modelled by the
  whole computation returning `Option.none`.
-/

namespace Grepr

/-- Rust `String` as a list of characters. -/
abbrev Str := List Char

/-- A line-oriented reader: the successive results of `read_line` calls.
`Except.error ()` is a failed read; the list running out is end-of-stream
(every later `read_line` returns `Ok(0)`). -/
abbrev Reader := List (Except Unit Str)

/-- Embeds `BufRead::read_line` acting on an in-memory byte stream
(the `Cursor` instance used by the crate's own tests): the returned line
is the bytes up to and including the first `'\n'`, or the whole rest of
the stream if it holds no `'\n'`; the second component is the unread
remainder. -/
def read_line : Str → Str × Str
  | [] => ([], [])
  | c :: rest =>
    if c = '\n' then ([c], rest)
    else
      let p := read_line rest
      (c :: p.1, p.2)

/-- Embeds the successive lines an in-memory stream yields to repeated
`read_line` calls: the code-side decomposition of a byte stream into
lines. -/
def readLines (s : Str) : List Str :=
  if h : s = [] then []
  else
    let p := read_line s
    p.1 :: readLines p.2
termination_by s.length
decreasing_by
  rcases s with _ | ⟨c, rest⟩
  · exact absurd rfl h
  · clear h
    induction rest generalizing c with
    | nil => by_cases hc : c = '\n' <;> simp [read_line, hc]
    | cons d rest ih =>
      by_cases hc : c = '\n'
      · simp [read_line, hc]
      · simp only [read_line, if_neg hc]
        have := ih d
        simpa using Nat.lt_trans this (by simp)

/-- Modelled from the spec's wording: a line is the maximal byte run up
to and including the next line terminator `'\n'`, or up to end-of-stream
for a final unterminated line. -/
def linesOf : Str → List Str
  | [] => []
  | c :: rest =>
    ((c :: rest).takeWhile (· != '\n') ++ ((c :: rest).dropWhile (· != '\n')).take 1)
      :: linesOf (((c :: rest).dropWhile (· != '\n')).drop 1)
termination_by s => s.length
decreasing_by
  have hle : ∀ l : Str, (l.dropWhile (· != '\n')).length ≤ l.length := by
    intro l
    induction l with
    | nil => simp
    | cons a l ih =>
      by_cases ha : (a != '\n') = true
      · simp only [List.dropWhile_cons, ha, if_true]
        exact Nat.le_trans ih (by simp)
      · simp [List.dropWhile_cons, ha]
  have h2 := hle (c :: rest)
  simp only [List.length_drop]
  simp only [List.length_cons] at h2 ⊢
  omega

/-- Embeds the `while let Ok(bytes) = file.read_line(&mut buffer)` loop of
`find_lines`: a failed read or a zero-byte read ends the loop; a line is
kept when `invert_match ^ pattern.is_match(&buffer)` holds. -/
def find_lines_loop (pattern : Str → Bool) (invert_match : Bool) : Reader → List Str
  | [] => []
  | Except.error _ :: _ => []
  | Except.ok buffer :: rest =>
    if buffer.length = 0 then []
    else if Bool.xor invert_match (pattern buffer) then
      buffer :: find_lines_loop pattern invert_match rest
    else
      find_lines_loop pattern invert_match rest

/-- Embeds `find_lines`: its only `return` is `Ok(res)` — the `while let`
loop swallows read errors, so the `Err` branch of its result type is
never built by the function body. -/
def find_lines (file : Reader) (pattern : Str → Bool) (invert_match : Bool) :
    Except Str (List Str) :=
  Except.ok (find_lines_loop pattern invert_match file)

/-- Describes the lines a reader actually delivers to the loop: every
successful nonempty read up to (excluding) the first failed or zero-byte
read. -/
def readPart : Reader → List Str
  | [] => []
  | Except.error _ :: _ => []
  | Except.ok buffer :: rest =>
    if buffer.length = 0 then [] else buffer :: readPart rest

/-- Substring test used only to instantiate pattern matchers in concrete
checks (a stand-in for a literal-text regex). -/
def hasSub (needle : Str) : Str → Bool
  | [] => needle.isEmpty
  | c :: rest => needle.isPrefixOf (c :: rest) || hasSub needle rest

/-- File type of a directory entry, as reported by
`walkdir::DirEntry::file_type()`. -/
inductive FType where
  | dir
  | file
  | other
deriving DecidableEq

/-- A directory entry yielded by the walk: its path and file type. -/
structure WEntry where
  path : Str
  ftype : FType
deriving DecidableEq

/-- One item yielded by the `WalkDir::new(path)` iterator: either an
entry, or a walk error that may or may not carry an underlying I/O
error (`walkdir::Error::io_error` returns an `Option`). -/
inductive WalkItem where
  | err (ioError : Option Str)
  | ok (entry : WEntry)
deriving DecidableEq

/-- Embeds the inner `for dir_entry in WalkDir::new(path)` loop of
`find_files`. `Option.none` models the panic raised by
`e.io_error().unwrap()` when a walk error carries no underlying I/O
error; `break` after the "is a directory" error is the `some` with no
recursive call. -/
def walkLoop (path : Str) (recursive : Bool) : List WalkItem → Option (List (Except Str Str))
  | [] => some []
  | WalkItem.err ioError :: rest =>
    match ioError with
    | none => none
    | some e =>
      (walkLoop path recursive rest).map fun r =>
        Except.error (path ++ (": ").toList ++ e) :: r
  | WalkItem.ok dir :: rest =>
    if dir.ftype = FType.dir ∧ recursive = false then
      some [Except.error (path ++ (" is a directory").toList)]
    else if dir.ftype = FType.file then
      (walkLoop path recursive rest).map fun r => Except.ok dir.path :: r
    else
      walkLoop path recursive rest

/-- Embeds `find_files`: the sentinel `"-"` is passed through verbatim;
any other path is expanded by walking it. The walk behaviour of the
filesystem is the `walk` parameter. `Option.none` models a panic
escaping the function. -/
def find_files (walk : Str → List WalkItem) (paths : List Str) (recursive : Bool) :
    Option (List (Except Str Str)) :=
  match paths with
  | [] => some []
  | path :: rest =>
    if path = ['-'] then
      (find_files walk rest recursive).map fun r => Except.ok path :: r
    else
      match walkLoop path recursive (walk path) with
      | none => none
      | some items => (find_files walk rest recursive).map fun r => items ++ r

/-- One `print!`/`println!` event of the driver's output channel:
`pfx path` is `print!("{}:", path)`, `matchLine l` is
`print!("{}", match_)`, `countLine n` is `println!("{}", matches.len())`. -/
inductive OutEvent where
  | pfx (path : Str)
  | matchLine (line : Str)
  | countLine (n : Nat)
deriving DecidableEq

def OutEvent.isPfx : OutEvent → Bool
  | OutEvent.pfx _ => true
  | _ => false

def OutEvent.isMatchLine : OutEvent → Bool
  | OutEvent.matchLine _ => true
  | _ => false

def OutEvent.isCountLine : OutEvent → Bool
  | OutEvent.countLine _ => true
  | _ => false

def OutEvent.isPayload (e : OutEvent) : Bool := e.isMatchLine || e.isCountLine

/-- Embeds the `Config` struct: the compiled pattern is kept abstract as
its one observable operation, the per-line boolean match. -/
structure Config where
  pattern : Str → Bool
  files : List Str
  recursive : Bool
  count : Bool
  invert_match : Bool

/-- The ambient effects `run` needs: the directory-walk behaviour of the
filesystem, `File::open` (wrapped in a `BufReader`), and the standard
input stream. -/
structure Env where
  walk : Str → List WalkItem
  fsOpen : Str → Except Str Reader
  stdin : Reader

/-- Embeds `open`: the sentinel `"-"` reads standard input, anything
else opens the file (which may fail with an I/O error). -/
def openInput (stdin : Reader) (fsOpen : Str → Except Str Reader) (filename : Str) :
    Except Str Reader :=
  if filename = ['-'] then Except.ok stdin else fsOpen filename

/-- The output events one successfully-opened file contributes, from
`run`'s loop body: in count mode an optional path marker then the count;
otherwise, per matching line, an optional path marker then the line. -/
def fileRecs (count many_files : Bool) (path : Str) (ms : List Str) : List OutEvent :=
  if count then
    (if many_files then [OutEvent.pfx path] else []) ++ [OutEvent.countLine ms.length]
  else
    ms.flatMap fun m => (if many_files then [OutEvent.pfx path] else []) ++ [OutEvent.matchLine m]

/-- Embeds the `for path in file_paths` loop of `run`, returning the
output events, the error-channel lines, and the loop's result (`Err`
only via the `?` on `find_lines`). -/
def run_loop (pattern : Str → Bool) (invert_match count many_files : Bool)
    (openf : Str → Except Str Reader) :
    List (Except Str Str) → List OutEvent × List Str × Except Str Unit
  | [] => ([], [], Except.ok ())
  | Except.error e :: rest =>
    let r := run_loop pattern invert_match count many_files openf rest
    (r.1, e :: r.2.1, r.2.2)
  | Except.ok path :: rest =>
    match openf path with
    | Except.error e =>
      let r := run_loop pattern invert_match count many_files openf rest
      (r.1, (path ++ (": ").toList ++ e) :: r.2.1, r.2.2)
    | Except.ok file =>
      match find_lines file pattern invert_match with
      | Except.error e => ([], [], Except.error e)
      | Except.ok ms =>
        let r := run_loop pattern invert_match count many_files openf rest
        (fileRecs count many_files path ms ++ r.1, r.2.1, r.2.2)

/-- Embeds `run`: resolve the configured paths, compute
`many_files = file_paths.len() > 1` over ALL per-path results (errors
included), then drive the loop. `none` models a panic escaping
`find_files`. -/
def run (env : Env) (config : Config) : Option (List OutEvent × List Str × Except Str Unit) :=
  (find_files env.walk config.files config.recursive).map fun file_paths =>
    run_loop config.pattern config.invert_match config.count
      (decide (1 < file_paths.length)) (openInput env.stdin env.fsOpen) file_paths

/-- Embeds the tail of `get_args`: clap has already produced the raw
argument values; the regex build (case sensitivity baked in) is the
abstract `build`, returning `none` on a compilation failure. -/
def get_args (build : Str → Bool → Option (Str → Bool)) (pattern_str : Str)
    (files : List Str) (insensitive recursive count invert_match : Bool) :
    Except Str Config :=
  match build pattern_str insensitive with
  | none =>
    Except.error (("Invalid pattern \"").toList ++ pattern_str ++ ("\"").toList)
  | some pattern => Except.ok ⟨pattern, files, recursive, count, invert_match⟩

/-- Modelled from the spec: the binary entry point (`main.rs`) is not
under `src/`. Per the spec, an uncompilable pattern is a fatal startup
error: the diagnostic is reported, the process exits with failure, and
no file processing (`run`) happens at all; otherwise `main` hands the
configuration to `run`. -/
def main_model (env : Env) (build : Str → Bool → Option (Str → Bool)) (pattern_str : Str)
    (files : List Str) (insensitive recursive count invert_match : Bool) :
    Option (List OutEvent × List Str × Except Str Unit) :=
  match get_args build pattern_str files insensitive recursive count invert_match with
  | Except.error e => some ([], [e], Except.error e)
  | Except.ok config => run env config

/-- Checks that an event list is a sequence of path-marker/payload
pairs: every emitted line or count is immediately preceded by a
`"<path>:"` marker. -/
def pairShape : List OutEvent → Bool
  | [] => true
  | OutEvent.pfx _ :: e :: rest => OutEvent.isPayload e && pairShape rest
  | _ => false

theorem read_line_snd_length_lt : ∀ (c : Char) (rest : Str),
    (read_line (c :: rest)).2.length < (c :: rest).length := by
  intro c rest
  induction rest generalizing c with
  | nil => by_cases h : c = '\n' <;> simp [read_line, h]
  | cons d rest ih =>
    by_cases h : c = '\n'
    · simp [read_line, h]
    · simp only [read_line, if_neg h]
      have := ih d
      simpa using Nat.lt_trans this (by simp)

theorem dropWhile_length_le (p : Char → Bool) :
    ∀ l : Str, (l.dropWhile p).length ≤ l.length := by
  intro l
  induction l with
  | nil => simp
  | cons c rest ih =>
    by_cases h : p c
    · simp only [List.dropWhile_cons, h, if_true]
      exact Nat.le_trans ih (by simp)
    · simp [List.dropWhile_cons, h]

theorem find_lines_loop_eq_filter (pattern : Str → Bool) (invert_match : Bool) :
    ∀ file : Reader,
      find_lines_loop pattern invert_match file =
        (readPart file).filter fun l => Bool.xor invert_match (pattern l) := by
  intro file
  induction file with
  | nil => simp [find_lines_loop, readPart]
  | cons item rest ih =>
    rcases item with e | buffer
    · simp [find_lines_loop, readPart]
    · by_cases hb : buffer.length = 0
      · simp [find_lines_loop, readPart, hb]
      · by_cases hm : Bool.xor invert_match (pattern buffer)
        · simp [find_lines_loop, readPart, hb, hm, List.filter, ih]
        · simp only [Bool.not_eq_true] at hm
          simp [find_lines_loop, readPart, hb, hm, List.filter, ih]

theorem read_line_eq (s : Str) :
    read_line s =
      (s.takeWhile (· != '\n') ++ (s.dropWhile (· != '\n')).take 1,
       (s.dropWhile (· != '\n')).drop 1) := by
  induction s with
  | nil => simp [read_line]
  | cons c rest ih =>
    by_cases h : c = '\n'
    · subst h
      simp [read_line, List.takeWhile_cons, List.dropWhile_cons]
    · have hb : (c != '\n') = true := by simpa using h
      simp only [read_line, if_neg h, List.takeWhile_cons, List.dropWhile_cons, hb,
        ite_true, ih]
      rw [List.cons_append]

theorem read_line_fst_ne_nil (c : Char) (rest : Str) :
    (read_line (c :: rest)).1 ≠ [] := by
  by_cases h : c = '\n' <;> simp [read_line, h]

theorem drop_dropWhile_length_lt (c : Char) (rest : Str) :
    (((c :: rest).dropWhile (· != '\n')).drop 1).length < (c :: rest).length := by
  have hle : ((c :: rest).dropWhile (· != '\n')).length ≤ (c :: rest).length :=
    dropWhile_length_le _ _
  simp only [List.length_drop]
  simp only [List.length_cons] at hle ⊢
  omega

theorem readLines_eq_linesOf (s : Str) : readLines s = linesOf s := by
  suffices h : ∀ (n : Nat) (s : Str), s.length ≤ n → readLines s = linesOf s from
    h s.length s le_rfl
  intro n
  induction n with
  | zero =>
    intro s hs
    have : s = [] := List.length_eq_zero.mp (Nat.le_zero.mp hs)
    subst this
    simp [readLines, linesOf]
  | succ n ih =>
    intro s hs
    rcases s with _ | ⟨c, rest⟩
    · simp [readLines, linesOf]
    · rw [readLines]
      rw [dif_neg (List.cons_ne_nil c rest)]
      rw [linesOf]
      rw [read_line_eq (c :: rest)]
      dsimp only
      refine congrArg _ (ih _ ?_)
      have := drop_dropWhile_length_lt c rest
      simp only [List.length_cons] at hs this
      omega

theorem mem_readLines_ne_nil (s : Str) : ∀ l ∈ readLines s, l ≠ [] := by
  suffices h : ∀ (n : Nat) (s : Str), s.length ≤ n → ∀ l ∈ readLines s, l ≠ [] from
    h s.length s le_rfl
  intro n
  induction n with
  | zero =>
    intro s hs
    have : s = [] := List.length_eq_zero.mp (Nat.le_zero.mp hs)
    subst this
    simp [readLines]
  | succ n ih =>
    intro s hs
    rcases s with _ | ⟨c, rest⟩
    · simp [readLines]
    · rw [readLines]
      rw [dif_neg (List.cons_ne_nil c rest)]
      intro l hl
      rcases List.mem_cons.mp hl with h | h
      · subst h; exact read_line_fst_ne_nil c rest
      · refine ih _ ?_ l h
        have := read_line_snd_length_lt c rest
        simp only [List.length_cons] at hs this
        omega

theorem find_lines_loop_map_ok (pattern : Str → Bool) (invert_match : Bool) :
    ∀ ls : List Str, (∀ l ∈ ls, l ≠ []) →
      find_lines_loop pattern invert_match (ls.map Except.ok) =
        ls.filter fun l => Bool.xor invert_match (pattern l) := by
  intro ls
  induction ls with
  | nil => intro _; simp [find_lines_loop]
  | cons l rest ih =>
    intro hne
    have hl : l ≠ [] := hne l (List.mem_cons_self l rest)
    have hlen : ¬ l.length = 0 := by simpa using hl
    have hrest := ih fun x hx => hne x (List.mem_cons_of_mem l hx)
    by_cases hm : Bool.xor invert_match (pattern l)
    · simp [find_lines_loop, hlen, hm, List.filter, hrest]
    · simp only [Bool.not_eq_true] at hm
      simp [find_lines_loop, hlen, hm, List.filter, hrest]

/-- Main characterisation of the Line Filter on an in-memory byte
stream: the result is `Ok` of the filter of the stream's lines by the
`invert ^ matches` predicate. -/
theorem find_lines_cursor (s : Str) (pattern : Str → Bool) (invert_match : Bool) :
    find_lines ((readLines s).map Except.ok) pattern invert_match =
      Except.ok ((linesOf s).filter fun l => Bool.xor invert_match (pattern l)) := by
  rw [find_lines,
    find_lines_loop_map_ok pattern invert_match (readLines s) (mem_readLines_ne_nil s),
    readLines_eq_linesOf]

theorem count_filter_not (q : Str → Bool) (L : List Str) (l : Str) :
    (L.filter q).count l + (L.filter fun x => ! q x).count l = L.count l := by
  induction L with
  | nil => simp
  | cons a L ih =>
    by_cases hq : q a
    · have hnq : ¬ ((! q a) = true) := by simp [hq]
      rw [List.filter_cons, List.filter_cons, if_pos hq, if_neg hnq,
        List.count_cons, List.count_cons]
      omega
    · have hq' : (! q a) = true := by simp [hq]
      rw [List.filter_cons, List.filter_cons, if_neg hq, if_pos hq',
        List.count_cons, List.count_cons]
      omega

/-- C1: for every line-oriented input stream, compiled pattern and invert
flag, `find_lines` returns (as a success value) exactly the ordered
subsequence of the stream's lines for which `pattern.matches(line) XOR
invert` holds, where a line is the maximal byte run up to and including
its terminator (a final unterminated line included without one), each
returned line unmodified. -/
theorem c1_line_filter (s : Str) (pattern : Str → Bool) (invert : Bool) :
    find_lines ((readLines s).map Except.ok) pattern invert =
      Except.ok ((linesOf s).filter fun l => Bool.xor (pattern l) invert) ∧
    ((linesOf s).filter fun l => Bool.xor (pattern l) invert).Sublist (linesOf s) := by
  constructor
  · rw [find_lines_cursor]
    congr 1
    simp [Bool.xor_comm]
  · exact List.filter_sublist _

/-- C2: on the same input, the lines kept with `invert = false` and the
lines kept with `invert = true` partition the input's lines: disjoint,
no line in both, and together (with multiplicity) every line of the
input. -/
theorem c2_partition (s : Str) (pattern : Str → Bool) :
    ∃ kept inverted,
      find_lines ((readLines s).map Except.ok) pattern false = Except.ok kept ∧
      find_lines ((readLines s).map Except.ok) pattern true = Except.ok inverted ∧
      (∀ l, l ∈ kept → l ∉ inverted) ∧
      (∀ l, l ∈ linesOf s ↔ (l ∈ kept ∨ l ∈ inverted)) ∧
      (∀ l, kept.count l + inverted.count l = (linesOf s).count l) := by
  refine ⟨_, _, find_lines_cursor s pattern false, find_lines_cursor s pattern true,
    ?_, ?_, ?_⟩
  · intro l hk hi
    have h1 := (List.mem_filter.mp hk).2
    have h2 := (List.mem_filter.mp hi).2
    simp at h1 h2
    exact absurd h1 (by simp [h2])
  · intro l
    constructor
    · intro hl
      by_cases hp : pattern l
      · exact Or.inl (List.mem_filter.mpr ⟨hl, by simp [hp]⟩)
      · simp only [Bool.not_eq_true] at hp
        exact Or.inr (List.mem_filter.mpr ⟨hl, by simp [hp]⟩)
    · intro hl
      rcases hl with h | h
      · exact (List.mem_filter.mp h).1
      · exact (List.mem_filter.mp h).1
  · intro l
    have := count_filter_not pattern (linesOf s) l
    have he1 : ((linesOf s).filter fun x => Bool.xor false (pattern x)) =
        (linesOf s).filter pattern := by simp
    have he2 : ((linesOf s).filter fun x => Bool.xor true (pattern x)) =
        (linesOf s).filter fun x => ! pattern x := by simp
    rw [he1, he2]
    exact this

/-- C10: the Line Filter is total over its result type: every return is
`Ok`, even when a mid-stream read fails — the `while let Ok` loop then
just ends and the lines matched up to that point are the successful
result, so the `Err` branch of its result type is unreachable. -/
theorem c10_find_lines_total (file : Reader) (pattern : Str → Bool) (invert : Bool) :
    find_lines file pattern invert =
      Except.ok ((readPart file).filter fun l => Bool.xor invert (pattern l)) := by
  rw [find_lines, find_lines_loop_eq_filter]

example : read_line (("Lorem\nIpsum").toList) = (("Lorem\n").toList, ("Ipsum").toList) := by
  rfl

example : read_line (("DOLOR").toList) = (("DOLOR").toList, []) := by
  rfl

example :
    find_lines
      [Except.ok (("Lorem\n").toList), Except.ok (("Ipsum\r\n").toList),
        Except.ok (("DOLOR").toList)]
      (fun l => hasSub (("or").toList) l) false =
      Except.ok [("Lorem\n").toList] := by rfl

example :
    find_lines
      [Except.ok (("Lorem\n").toList), Except.ok (("Ipsum\r\n").toList),
        Except.ok (("DOLOR").toList)]
      (fun l => hasSub (("or").toList) l) true =
      Except.ok [("Ipsum\r\n").toList, ("DOLOR").toList] := by rfl

example :
    find_lines
      [Except.ok (("Lorem\n").toList), Except.ok (("Ipsum\r\n").toList),
        Except.ok (("DOLOR").toList)]
      (fun l => hasSub (("or").toList) (l.map Char.toLower)) false =
      Except.ok [("Lorem\n").toList, ("DOLOR").toList] := by rfl

example :
    find_lines
      [Except.ok (("Lorem\n").toList), Except.ok (("Ipsum\r\n").toList),
        Except.ok (("DOLOR").toList)]
      (fun l => hasSub (("or").toList) (l.map Char.toLower)) true =
      Except.ok [("Ipsum\r\n").toList] := by rfl

/-- C5: resolving an existing directory path with `recursive = false`
yields exactly one result for that input path — an error result with
message `"<path> is a directory"` — and the resolver neither descends
into the directory nor emits anything else for that path (the remaining
walk items are never consulted); subsequent input paths are unaffected. -/
theorem c5_directory_not_recursive (walk : Str → List WalkItem) (path : Str)
    (ps : List Str) (dir : WEntry) (rest : List WalkItem)
    (hs : path ≠ ['-']) (hw : walk path = WalkItem.ok dir :: rest)
    (hd : dir.ftype = FType.dir) :
    find_files walk (path :: ps) false =
      (find_files walk ps false).map fun r =>
        Except.error (path ++ (" is a directory").toList) :: r := by
  rw [find_files]
  rw [if_neg hs, hw]
  rw [walkLoop]
  rw [if_pos ⟨hd, rfl⟩]
  rcases hff : find_files walk ps false with _ | r <;> simp [hff]

theorem c5_directory_not_recursive_witness :
    ((['d'] : Str) ≠ ['-']) ∧
    find_files (fun _ => [WalkItem.ok ⟨['d'], FType.dir⟩]) [['d']] false =
      (find_files (fun _ => [WalkItem.ok ⟨['d'], FType.dir⟩]) [] false).map fun r =>
        Except.error ((['d'] : Str) ++ (" is a directory").toList) :: r :=
  ⟨by decide,
    c5_directory_not_recursive (fun _ => [WalkItem.ok ⟨['d'], FType.dir⟩]) ['d'] []
      ⟨['d'], FType.dir⟩ [] (by decide) rfl rfl⟩

/-- C6 counterexample: a walk error carrying no underlying I/O error
(as walkdir produces for symlink loops) makes `find_files` evaluate
`e.io_error().unwrap()` on `None`: the resolver panics — modelled by
`none` — instead of emitting an error result, so the claim's
"the error-formatting path must not fail" is violated by the code. -/
theorem c6_counterexample :
    find_files (fun _ => [WalkItem.err none]) [['p']] true = none := by
  rfl

/-- C6 as amended: provided a mid-walk traversal error carries an
underlying I/O error, the resolver emits exactly one error result
embedding the offending input path and that error, and continues with
the rest of the walk and the rest of the input-path list. -/
theorem c6_walk_error_with_io_cause (walk : Str → List WalkItem) (path : Str)
    (ps : List Str) (recursive : Bool) (e : Str) (rest : List WalkItem)
    (hs : path ≠ ['-']) (hw : walk path = WalkItem.err (some e) :: rest) :
    find_files walk (path :: ps) recursive =
      (walkLoop path recursive rest).bind fun items =>
        (find_files walk ps recursive).map fun r =>
          (Except.error (path ++ (": ").toList ++ e) :: items) ++ r := by
  rw [find_files]
  rw [if_neg hs, hw]
  rw [walkLoop]
  rcases hwl : walkLoop path recursive rest with _ | items
  · simp
  · rcases hff : find_files walk ps recursive with _ | r <;>
      simp [Option.map, Option.bind, hff]

theorem c6_walk_error_with_io_cause_witness :
    ((['p'] : Str) ≠ ['-']) ∧
    find_files (fun _ => [WalkItem.err (some ['x']), WalkItem.ok ⟨['f'], FType.file⟩])
        [['p']] true =
      (walkLoop ['p'] true [WalkItem.ok ⟨['f'], FType.file⟩]).bind fun items =>
        (find_files
            (fun _ => [WalkItem.err (some ['x']), WalkItem.ok ⟨['f'], FType.file⟩])
            [] true).map fun r =>
          (Except.error ((['p'] : Str) ++ (": ").toList ++ ['x']) :: items) ++ r :=
  ⟨by decide,
    c6_walk_error_with_io_cause
      (fun _ => [WalkItem.err (some ['x']), WalkItem.ok ⟨['f'], FType.file⟩])
      ['p'] [] true ['x'] [WalkItem.ok ⟨['f'], FType.file⟩] (by decide) rfl⟩

/-- C7: the resolver is the concatenation, in input order, of the
results of each input path independently: resolving `ps ++ qs` equals
resolving `ps`, then `qs`, appended (in the `Option` monad that carries
the possibility of a panic); error results on one input path never
suppress or alter later paths, and one path's expansion is contiguous
before the next path's results. -/
theorem c7_resolver_append (walk : Str → List WalkItem) (ps qs : List Str)
    (recursive : Bool) :
    find_files walk (ps ++ qs) recursive =
      (find_files walk ps recursive).bind fun a =>
        (find_files walk qs recursive).map fun b => a ++ b := by
  induction ps with
  | nil =>
    rcases hq : find_files walk qs recursive with _ | b <;>
      simp [find_files, hq, Option.map, Option.bind]
  | cons p ps ih =>
    by_cases hp : p = ['-']
    · simp only [List.cons_append, find_files, if_pos hp]
      rcases hps : find_files walk ps recursive with _ | a <;>
        rcases hq : find_files walk qs recursive with _ | b <;>
          simp [ih, hps, hq, Option.map, Option.bind]
    · simp only [List.cons_append, find_files, if_neg hp]
      rcases hwl : walkLoop p recursive (walk p) with _ | items
      · simp
      · rcases hps : find_files walk ps recursive with _ | a <;>
          rcases hq : find_files walk qs recursive with _ | b <;>
            simp [ih, hps, hq, Option.map, Option.bind]

theorem run_loop_res_ok (pattern : Str → Bool) (invert_match count many_files : Bool)
    (openf : Str → Except Str Reader) :
    ∀ fps, (run_loop pattern invert_match count many_files openf fps).2.2 = Except.ok () := by
  intro fps
  induction fps with
  | nil => rfl
  | cons item rest ih =>
    rcases item with e | path
    · simpa [run_loop] using ih
    · rcases ho : openf path with e | file
      · simpa [run_loop, ho] using ih
      · simpa [run_loop, ho, find_lines] using ih

/-- C3 counterexample: a run in which the single file fails to open
(a per-file error is reported on the error channel) still ends with the
successful result `Ok(())` — `run` signals success, not failure. -/
theorem c3_counterexample :
    run
      ⟨fun _ => [WalkItem.ok ⟨['f'], FType.file⟩], fun _ => Except.error ['d'], []⟩
      ⟨fun _ => true, [['f']], false, false, false⟩ =
      some ([], [['f', ':', ' ', 'd']], Except.ok ()) := by
  rfl

/-- C3 as amended: per-path resolution and per-file open errors are
reported on the error channel only; whenever `run` completes it returns
the success value, regardless of such errors. -/
theorem c3_run_result_ignores_path_errors (env : Env) (config : Config)
    (out : List OutEvent) (errs : List Str) (res : Except Str Unit)
    (h : run env config = some (out, errs, res)) : res = Except.ok () := by
  rw [run] at h
  rcases hff : find_files env.walk config.files config.recursive with _ | fps <;>
    rw [hff] at h
  · simp [Option.map] at h
  · simp only [Option.map] at h
    injection h with h
    have hres : res =
        (run_loop config.pattern config.invert_match config.count
          (decide (1 < fps.length)) (openInput env.stdin env.fsOpen) fps).2.2 :=
      (congrArg (fun t => t.2.2) h).symm
    rw [hres, run_loop_res_ok]

theorem c3_run_result_ignores_path_errors_witness :
    (Except.ok () : Except Str Unit) = Except.ok () :=
  c3_run_result_ignores_path_errors
    ⟨fun _ => [WalkItem.ok ⟨['g'], FType.file⟩], fun _ => Except.error ['e'], []⟩
    ⟨fun _ => true, [['g']], false, false, false⟩
    [] [['g', ':', ' ', 'e']] (Except.ok ()) rfl

theorem filter_isMatchLine_fileRecs (many_files : Bool) (path : Str) (ms : List Str) :
    (fileRecs false many_files path ms).filter OutEvent.isMatchLine =
      ms.map OutEvent.matchLine := by
  induction ms with
  | nil => cases many_files <;> simp [fileRecs]
  | cons m ms ih =>
    cases many_files <;>
      simpa [fileRecs, List.filter_append, OutEvent.isMatchLine, OutEvent.isPfx] using ih

/-- C8: for a successfully-opened input, the integer reported in count
mode is exactly the length of the matched-line sequence that non-count
mode emits for the same input, pattern and invert flag. -/
theorem c8_count_mode_refines (pattern : Str → Bool) (invert_match many_files : Bool)
    (openf : Str → Except Str Reader) (path : Str) (file : Reader)
    (hopen : openf path = Except.ok file) :
    ∃ ms, find_lines file pattern invert_match = Except.ok ms ∧
      (run_loop pattern invert_match true many_files openf [Except.ok path]).1 =
        (if many_files then [OutEvent.pfx path] else []) ++
          [OutEvent.countLine ms.length] ∧
      ((run_loop pattern invert_match false many_files openf [Except.ok path]).1.filter
          OutEvent.isMatchLine).length = ms.length := by
  refine ⟨find_lines_loop pattern invert_match file, rfl, ?_, ?_⟩
  · simp [run_loop, hopen, find_lines, fileRecs]
  · simp [run_loop, hopen, find_lines, filter_isMatchLine_fileRecs]

theorem c8_count_mode_refines_witness :
    ∃ ms, find_lines [Except.ok ['a', '\n']] (fun _ => true) false = Except.ok ms ∧
      (run_loop (fun _ => true) false true false
          (fun _ => Except.ok [Except.ok ['a', '\n']]) [Except.ok ['f']]).1 =
        (if false then [OutEvent.pfx ['f']] else []) ++
          [OutEvent.countLine ms.length] ∧
      ((run_loop (fun _ => true) false false false
          (fun _ => Except.ok [Except.ok ['a', '\n']]) [Except.ok ['f']]).1.filter
          OutEvent.isMatchLine).length = ms.length :=
  c8_count_mode_refines (fun _ => true) false false
    (fun _ => Except.ok [Except.ok ['a', '\n']]) ['f'] [Except.ok ['a', '\n']] rfl

/-- C9: a pattern string the regex engine rejects makes configuration
construction fail with exactly `Invalid pattern "<pattern>"`, and (per
the spec's startup policy, `main.rs` being outside `src/`) the program
then performs no file processing and emits nothing on the output
channel; a pattern that compiles yields the configuration. -/
theorem c9_pattern_compilation (env : Env) (build : Str → Bool → Option (Str → Bool))
    (pattern_str : Str) (files : List Str)
    (insensitive recursive count invert_match : Bool) :
    (build pattern_str insensitive = none →
      get_args build pattern_str files insensitive recursive count invert_match =
        Except.error
          (("Invalid pattern \"").toList ++ pattern_str ++ ("\"").toList) ∧
      main_model env build pattern_str files insensitive recursive count invert_match =
        some ([],
          [("Invalid pattern \"").toList ++ pattern_str ++ ("\"").toList],
          Except.error
            (("Invalid pattern \"").toList ++ pattern_str ++ ("\"").toList))) ∧
    (∀ pattern, build pattern_str insensitive = some pattern →
      get_args build pattern_str files insensitive recursive count invert_match =
        Except.ok ⟨pattern, files, recursive, count, invert_match⟩) := by
  constructor
  · intro hb
    constructor
    · simp [get_args, hb]
    · simp [main_model, get_args, hb]
  · intro pattern hb
    simp [get_args, hb]

theorem c9_pattern_compilation_witness :
    (get_args (fun _ _ => none) ['a'] [] false false false false =
      Except.error (("Invalid pattern \"").toList ++ ['a'] ++ ("\"").toList)) ∧
    (get_args (fun _ _ => some fun _ => true) ['a'] [] false false false false =
      Except.ok ⟨fun _ => true, [], false, false, false⟩) :=
  ⟨((c9_pattern_compilation ⟨fun _ => [], fun _ => Except.error [], []⟩
      (fun _ _ => none) ['a'] [] false false false false).1 rfl).1,
    (c9_pattern_compilation ⟨fun _ => [], fun _ => Except.error [], []⟩
      (fun _ _ => some fun _ => true) ['a'] [] false false false false).2
      (fun _ => true) rfl⟩

theorem fileRecs_false_eq (count : Bool) (path : Str) (ms : List Str) :
    fileRecs count false path ms =
      if count then [OutEvent.countLine ms.length] else ms.map OutEvent.matchLine := by
  cases count
  · simp only [fileRecs, ite_false, Bool.false_eq_true]
    induction ms with
    | nil => simp
    | cons m ms ih => simpa using ih
  · simp [fileRecs]

theorem mem_fileRecs_false (count : Bool) (path : Str) (ms : List Str) (e : OutEvent)
    (he : e ∈ fileRecs count false path ms) : e.isPfx = false := by
  rw [fileRecs_false_eq] at he
  cases count
  · simp only [ite_false, Bool.false_eq_true, List.mem_map] at he
    obtain ⟨m, _, rfl⟩ := he
    rfl
  · simp only [ite_true] at he
    rcases List.mem_singleton.mp he with rfl
    rfl

theorem run_loop_no_pfx (pattern : Str → Bool) (invert_match count : Bool)
    (openf : Str → Except Str Reader) :
    ∀ fps e, e ∈ (run_loop pattern invert_match count false openf fps).1 →
      OutEvent.isPfx e = false := by
  intro fps
  induction fps with
  | nil => intro e he; simp [run_loop] at he
  | cons item rest ih =>
    intro e he
    rcases item with er | path
    · exact ih e (by simpa [run_loop] using he)
    · rcases ho : openf path with er | file
      · exact ih e (by simpa [run_loop, ho] using he)
      · simp only [run_loop, ho, find_lines, List.mem_append] at he
        rcases he with h | h
        · exact mem_fileRecs_false count path _ e h
        · exact ih e h

theorem isPayload_matchLine (l : Str) :
    OutEvent.isPayload (OutEvent.matchLine l) = true := rfl

theorem isPayload_countLine (n : Nat) :
    OutEvent.isPayload (OutEvent.countLine n) = true := rfl

theorem pairShape_cons_pfx (p : Str) (e : OutEvent) (rest : List OutEvent) :
    pairShape (OutEvent.pfx p :: e :: rest) = (OutEvent.isPayload e && pairShape rest) :=
  rfl

theorem pairShape_append : ∀ a b : List OutEvent,
    pairShape a = true → pairShape b = true → pairShape (a ++ b) = true := by
  suffices h : ∀ (n : Nat) (a b : List OutEvent), a.length ≤ n →
      pairShape a = true → pairShape b = true → pairShape (a ++ b) = true from
    fun a b => h a.length a b le_rfl
  intro n
  induction n with
  | zero =>
    intro a b ha hsa hsb
    have : a = [] := List.length_eq_zero.mp (Nat.le_zero.mp ha)
    subst this
    simpa using hsb
  | succ n ih =>
    intro a b ha hsa hsb
    rcases a with _ | ⟨x, _ | ⟨y, rest⟩⟩
    · simpa using hsb
    · cases x <;> exact Bool.noConfusion (show false = true from hsa)
    · cases x with
      | pfx p =>
        rw [pairShape_cons_pfx, Bool.and_eq_true] at hsa
        have hlen : rest.length ≤ n := by
          simp only [List.length_cons] at ha
          omega
        simp only [List.cons_append]
        rw [pairShape_cons_pfx, Bool.and_eq_true]
        exact ⟨hsa.1, ih rest b hlen hsa.2 hsb⟩
      | matchLine l => exact Bool.noConfusion (show false = true from hsa)
      | countLine k => exact Bool.noConfusion (show false = true from hsa)

theorem pairShape_flatMap (path : Str) : ∀ ms : List Str,
    pairShape (ms.flatMap fun m => [OutEvent.pfx path, OutEvent.matchLine m]) = true := by
  intro ms
  induction ms with
  | nil => rfl
  | cons m ms ih =>
    rw [List.flatMap_cons]
    simp only [List.cons_append, List.nil_append]
    rw [pairShape_cons_pfx, Bool.and_eq_true]
    exact ⟨isPayload_matchLine m, ih⟩

theorem fileRecs_false_true_eq (path : Str) (ms : List Str) :
    fileRecs false true path ms =
      ms.flatMap fun m => [OutEvent.pfx path, OutEvent.matchLine m] := by
  simp [fileRecs]

theorem fileRecs_true_pairShape (count : Bool) (path : Str) (ms : List Str) :
    pairShape (fileRecs count true path ms) = true := by
  cases count
  · rw [fileRecs_false_true_eq]
    exact pairShape_flatMap path ms
  · rfl

theorem run_loop_pairShape (pattern : Str → Bool) (invert_match count : Bool)
    (openf : Str → Except Str Reader) :
    ∀ fps, pairShape (run_loop pattern invert_match count true openf fps).1 = true := by
  intro fps
  induction fps with
  | nil => rfl
  | cons item rest ih =>
    rcases item with er | path
    · simpa [run_loop] using ih
    · rcases ho : openf path with er | file
      · simpa [run_loop, ho] using ih
      · simp only [run_loop, ho, find_lines]
        exact pairShape_append _ _ (fileRecs_true_pairShape count path _) ih

/-- C4 counterexample: two listed paths, one failing to resolve and one
resolving to a single file — so exactly one file is successfully
resolved — yet the code computes `many_files` from the length of ALL
per-path results (errors included) and therefore DOES prefix the
emitted line with `"<path>:"`, contrary to the claim. -/
theorem c4_counterexample :
    run
      ⟨fun p => if p = ['b'] then [WalkItem.err (some ['n', 'o'])]
          else [WalkItem.ok ⟨['f'], FType.file⟩],
        fun _ => Except.ok [Except.ok ['l', '\n']], []⟩
      ⟨fun _ => true, [['b'], ['f']], false, false, false⟩ =
      some ([OutEvent.pfx ['f'], OutEvent.matchLine ['l', '\n']],
        [['b', ':', ' ', 'n', 'o']], Except.ok ()) := by
  rfl

/-- C4 as amended: the driver prefixes output exactly when the total
number of per-path results — successes AND errors together — exceeds
one: with at most one result no `"<path>:"` marker is ever emitted, and
with more than one every emitted line or count is immediately preceded
by one. -/
theorem c4_prefix_iff_many_results (env : Env) (config : Config)
    (fps : List (Except Str Str)) (out : List OutEvent) (errs : List Str)
    (res : Except Str Unit)
    (hf : find_files env.walk config.files config.recursive = some fps)
    (hr : run env config = some (out, errs, res)) :
    (fps.length ≤ 1 → ∀ e ∈ out, OutEvent.isPfx e = false) ∧
    (1 < fps.length → pairShape out = true) := by
  rw [run, hf] at hr
  simp only [Option.map] at hr
  injection hr with hr
  have hout : out =
      (run_loop config.pattern config.invert_match config.count
        (decide (1 < fps.length)) (openInput env.stdin env.fsOpen) fps).1 :=
    (congrArg Prod.fst hr).symm
  constructor
  · intro hle e he
    have hd : decide (1 < fps.length) = false := by
      simp only [decide_eq_false_iff_not]
      omega
    rw [hout, hd] at he
    exact run_loop_no_pfx _ _ _ _ fps e he
  · intro hlt
    have hd : decide (1 < fps.length) = true := by
      simpa using hlt
    rw [hout, hd]
    exact run_loop_pairShape _ _ _ _ fps

theorem c4_prefix_iff_many_results_witness :
    (([Except.ok ['f']] : List (Except Str Str)).length ≤ 1 →
      ∀ e ∈ [OutEvent.matchLine ['l', '\n']], OutEvent.isPfx e = false) ∧
    (1 < ([Except.ok ['f']] : List (Except Str Str)).length →
      pairShape [OutEvent.matchLine ['l', '\n']] = true) :=
  c4_prefix_iff_many_results
    ⟨fun _ => [WalkItem.ok ⟨['f'], FType.file⟩],
      fun _ => Except.ok [Except.ok ['l', '\n']], []⟩
    ⟨fun _ => true, [['f']], false, false, false⟩
    [Except.ok ['f']] [OutEvent.matchLine ['l', '\n']] [] (Except.ok ()) rfl rfl

end Grepr

